import Mathlib

/-!
Shallow embedding of the ohmers object-to-hash mapping library
(`src/lib.rs`): error taxonomy, Redis key naming, the attribute
partitioning used by save and delete, the persistence protocol,
relation-field accessors (List, Set, Counter), query composition
over `stal` set expressions, and the query-result iterator.

The store-side Lua scripts (`lua.rs`) and the generic codec
(`encoder.rs` / `decoder.rs`) are not part of the sources; where a
claim depends on them they are modelled from the specification and
marked as such in their doc comments.
-/

namespace Ohmers

/-- The error enum of `lib.rs` (`OhmerError`). Payloads that carry
foreign library data (`redis::RedisError`, `EncoderError`, the
`CommandError` byte vector) are reduced to unit payloads; the field
names carried by `UnknownIndex` and `UniqueIndexViolation` are kept. -/
inductive OhmerError where
  | NotSaved : OhmerError
  | RedisError : OhmerError
  | EncoderError : OhmerError
  | DecoderError : OhmerError
  | UnknownIndex : String → OhmerError
  | UniqueIndexViolation : String → OhmerError
  | CommandError : OhmerError
deriving DecidableEq, Repr

/-- Modelled from the spec: the decoder error of the missing
`decoder.rs` ("Fails with DecoderError if a required field is absent
from the map"); the payload names the absent field. -/
inductive DecoderError where
  | MissingField : String → DecoderError
deriving DecidableEq, Repr

/-- Rust `Ohmer::key_for_unique` (lib.rs lines 277-279 and 707-709):
`format!("{}:uniques:{}:{}", class, field, value)`. -/
def key_for_unique (className field value : String) : String :=
  className ++ ":uniques:" ++ field ++ ":" ++ value

/-- Rust `Ohmer::key_for_index` (lib.rs lines 281-283 and 712-714):
`format!("{}:indices:{}:{}", class, field, value)`. -/
def key_for_index (className field value : String) : String :=
  className ++ ":indices:" ++ field ++ ":" ++ value

/-- The hash key that `with` consults (lib.rs line 587):
`format!("{}:uniques:{}", class, property)`, queried with the
value as the hash field. -/
def uniqueMapKey (className field : String) : String :=
  className ++ ":uniques:" ++ field

/-- The record hash key (lib.rs lines 733 and 816):
`format!("{}:{}", class, id)`. -/
def recordKey (className : String) (id : Nat) : String :=
  className ++ ":" ++ toString id

/-! ### Attribute partitioning (`Ohmer::uniques_indices`, lib.rs 750-775) -/

/-- The loop in `uniques_indices` walks `encoder.attributes` two
entries at a time (`attributes[2*i]` is a field name, `attributes[2*i+1]`
its value); a trailing odd element is ignored. -/
def toPairs : List String → List (String × String)
  | k :: v :: rest => (k, v) :: toPairs rest
  | _ => []

/-- The field names appearing in the encoded attribute list. -/
def attrKeys (attributes : List String) : List String :=
  (toPairs attributes).map Prod.fst

/-- One iteration of the `uniques_indices` loop: the accumulator holds
the not-yet-seen unique fields, the not-yet-seen indexed fields, and
the collected `uniques` and `indices` maps. A key claims an indexed
field either directly or, when it ends in `_id`, with the suffix
stripped (lib.rs 765-767). Removal from the remaining-field sets uses
`filter` (the Rust sets hold each declared field once). -/
def uiStep (acc : List String × List String × List (String × String) × List (String × List String))
    (kv : String × String) :
    List String × List String × List (String × String) × List (String × List String) :=
  let ufRem := acc.1
  let ifRem := acc.2.1
  let uniques := acc.2.2.1
  let indices := acc.2.2.2
  let k := kv.1
  let v := kv.2
  let uniques' := if k ∈ ufRem then uniques ++ [(k, v)] else uniques
  let ufRem' := ufRem.filter (· ≠ k)
  if k ∈ ifRem then
    (ufRem', ifRem.filter (· ≠ k), uniques', indices ++ [(k, [v])])
  else if k.length > 3 ∧ k.takeRight 3 = "_id" ∧ k.dropRight 3 ∈ ifRem then
    (ufRem', ifRem.filter (· ≠ k.dropRight 3), uniques', indices ++ [(k, [v])])
  else
    (ufRem', ifRem, uniques', indices)

/-- Rust `Ohmer::uniques_indices` (lib.rs 750-775): partition the encoded
attributes into the unique-field map and the indexed-field map; after
the walk, if any declared unique field was never seen, fail with
`UnknownIndex` naming one such field. Remaining indexed fields are not
checked. -/
def uniques_indices (uniqueFields indexFields : List String) (attributes : List String) :
    Except OhmerError (List (String × String) × List (String × List String)) :=
  let r := (toPairs attributes).foldl uiStep (uniqueFields, indexFields, [], [])
  match r.1 with
  | [] => .ok (r.2.2.1, r.2.2.2)
  | f :: _ => .error (.UnknownIndex f)

/-! ### Query composition (`Query`, lib.rs 1298-1403)

`stal::Set` is the expression tree handed to the external set-algebra
solver. Its `Key` leaf carries the raw bytes of a Redis key; we carry
the key string itself. -/

/-- The `stal::Set` expression tree: a key leaf or a boolean node over
a list of sub-expressions. -/
inductive StalSet where
  | Key : String → StalSet
  | Inter : List StalSet → StalSet
  | Union : List StalSet → StalSet
  | Diff : List StalSet → StalSet
deriving Repr

namespace StalSet

/-- Direct sub-expressions of a node. -/
def children : StalSet → List StalSet
  | .Key _ => []
  | .Inter l => l
  | .Union l => l
  | .Diff l => l

mutual

/-- Height of an expression tree (a leaf has depth 0). -/
def depth : StalSet → Nat
  | .Key _ => 0
  | .Inter l => depthList l + 1
  | .Union l => depthList l + 1
  | .Diff l => depthList l + 1

/-- Maximum depth over a list of expressions. -/
def depthList : List StalSet → Nat
  | [] => 0
  | s :: rest => Nat.max s.depth (depthList rest)

end

end StalSet

namespace Query

/-- Rust `Query::key` (lib.rs 1317-1319): the index-set leaf for a
field/value pair. -/
def key (className field value : String) : StalSet :=
  .Key (key_for_index className field value)

/-- Rust `Query::sinter` (lib.rs 1335-1339): the previous expression is
pushed onto the end of the new operand list and the whole becomes one
`Inter` node. -/
def sinter (current : StalSet) (sets : List StalSet) : StalSet :=
  .Inter (sets ++ [current])

/-- Rust `Query::sunion` (lib.rs 1350-1354): the previous expression is
pushed onto the end of the new operand list and the whole becomes one
`Union` node. -/
def sunion (current : StalSet) (sets : List StalSet) : StalSet :=
  .Union (sets ++ [current])

/-- Rust `Query::sdiff` (lib.rs 1363-1367): the previous expression is
inserted at position 0 of the operand list, so the named sets are
subtracted from it. -/
def sdiff (current : StalSet) (sets : List StalSet) : StalSet :=
  .Diff (current :: sets)

/-- Rust `Query::inter` (lib.rs 1328-1331): single field/value form. -/
def inter (current : StalSet) (className field value : String) : StalSet :=
  sinter current [key className field value]

/-- Rust `Query::union` (lib.rs 1343-1346): single field/value form. -/
def union (current : StalSet) (className field value : String) : StalSet :=
  sunion current [key className field value]

/-- Rust `Query::diff` (lib.rs 1357-1360): single field/value form. -/
def diff (current : StalSet) (className field value : String) : StalSet :=
  sdiff current [key className field value]

end Query

/-! ### Persistence protocol (`Ohmer::save` / `load` / `delete`, `with`) -/

/-- A record of a declared type, as the codec sees it: the `id` field
(0 = not yet persisted) plus the ordered flattened attribute list of
all plain, unique and indexed fields (relation containers and counters
are not stored on the record hash). Modelled from the spec (§4.1): the
generic codec of the missing `encoder.rs`/`decoder.rs` flattens a
record into an ordered name/value sequence; the id is kept apart
because the stored hash does not duplicate it. -/
structure Record where
  id : Nat
  fields : List (String × String)
deriving DecidableEq, Repr

/-- The slice of the Redis store the persistence protocol touches:
record hashes, the per-field unique maps (hash key → value → owner
id), the membership index and the per-type id allocator. -/
structure Store where
  hashes : List (String × List (String × String))
  umaps : List (String × List (String × Nat))
  allIds : List Nat
  nextId : Nat
deriving DecidableEq, Repr

/-- Empty store. -/
def Store.empty : Store := ⟨[], [], [], 0⟩

/-- Overwrite-or-append update of an association list. -/
def assocSet {β : Type} (l : List (String × β)) (k : String) (v : β) : List (String × β) :=
  match l with
  | [] => [(k, v)]
  | (k', v') :: rest => if k' = k then (k, v) :: rest else (k', v') :: assocSet rest k v

/-- Encoding step: the flat attribute vector the encoder hands to
`uniques_indices` (name, value, name, value, ...). -/
def flattenAttrs : List (String × String) → List String
  | [] => []
  | (k, v) :: rest => k :: v :: flattenAttrs rest

/-- Modelled from the spec: the decoder of the missing `decoder.rs`
reads each declared field from the stored attribute map, failing with
`DecoderError` on the first absent field; unknown keys are ignored. -/
def decodeFields (schema : List String) (props : List (String × String)) :
    Except DecoderError (List (String × String)) :=
  match schema with
  | [] => .ok []
  | f :: rest =>
    match props.lookup f with
    | some v =>
      match decodeFields rest props with
      | .ok fs => .ok ((f, v) :: fs)
      | .error e => .error e
    | none => .error (.MissingField f)

/-- Rust `Ohmer::load` (lib.rs 732-739): `HGETALL` the record hash (an
absent key reads as the empty map), synthesize the id attribute, and
decode. `schema` is the declared field list of the type. -/
def load (schema : List String) (className : String) (st : Store) (id : Nat) :
    Except DecoderError Record :=
  let props := (st.hashes.lookup (recordKey className id)).getD []
  match decodeFields schema props with
  | .ok fs => .ok { id := id, fields := fs }
  | .error e => .error e

/-- Lookup of a value in the unique map of one field, as `with`
performs it with `HGET` (lib.rs 587). -/
def uniqueLookup (st : Store) (className field value : String) : Option Nat :=
  ((st.umaps.lookup (uniqueMapKey className field)).getD []).lookup value

/-- Rust `with` (lib.rs 584-595): consult the unique map; no recorded id
yields `Ok(None)`, a recorded id is loaded and wrapped in `Some`. -/
def withUnique (schema : List String) (className property value : String) (st : Store) :
    Except DecoderError (Option Record) :=
  match uniqueLookup st className property value with
  | none => .ok none
  | some id =>
    match load schema className st id with
    | .ok r => .ok (some r)
    | .error e => .error e

/-- Uniqueness check of the store-side SAVE script. Modelled from the
spec (§4.2 step 4b): for each unique field, a value already owned by a
different id aborts the whole operation, naming the colliding field. -/
def checkUniques (st : Store) (className : String) (newId : Nat) :
    List (String × String) → Except OhmerError Unit
  | [] => .ok ()
  | (f, v) :: rest =>
    match uniqueLookup st className f v with
    | some owner =>
      if owner ≠ newId then .error (.UniqueIndexViolation f)
      else checkUniques st className newId rest
    | none => checkUniques st className newId rest

/-- Update of one unique map: point `value` at the owning id. -/
def setUnique (umaps : List (String × List (String × Nat))) (className field value : String)
    (id : Nat) : List (String × List (String × Nat)) :=
  assocSet umaps (uniqueMapKey className field)
    (assocSet ((umaps.lookup (uniqueMapKey className field)).getD []) value id)

/-- Rust `Ohmer::save` (lib.rs 779-802) together with the store-side SAVE
script. The `lib.rs` part: encode, partition via `uniques_indices`
(failing fast on a missing unique field), submit, and adopt the
returned id. The script part is modelled from the spec (§4.2 step 4):
allocate the next id when the record's id is 0 and add it to the
membership index, verify the unique values, overwrite the record hash
with the full attribute list, and repoint the unique maps. (Index-set
bookkeeping, spec step 4e, touches neither the record hash nor the
unique maps and is not represented.) -/
def save (uniqueFields indexFields : List String) (className : String) (r : Record)
    (st : Store) : Except OhmerError (Nat × Store) :=
  match uniques_indices uniqueFields indexFields (flattenAttrs r.fields) with
  | .error e => .error e
  | .ok (uniques, _indices) =>
    let newId := if r.id = 0 then st.nextId + 1 else r.id
    match checkUniques st className newId uniques with
    | .error e => .error e
    | .ok _ =>
      .ok (newId,
        { hashes := assocSet st.hashes (recordKey className newId) r.fields,
          umaps := uniques.foldl (fun m fv => setUnique m className fv.1 fv.2 newId) st.umaps,
          allIds := if r.id = 0 then st.allIds ++ [newId] else st.allIds,
          nextId := Nat.max st.nextId newId })

/-- The arguments `Ohmer::delete` hands to the DELETE script
(lib.rs 813-825): the record hash key, the id, the type name, the
unique map produced by `uniques_indices`, and the tracked relation
containers (sets, then counters, then lists). -/
structure DeleteCall where
  key : String
  id : Nat
  name : String
  uniques : List (String × String)
  tracked : List String
deriving DecidableEq, Repr

/-- Rust `Ohmer::delete` (lib.rs 805-827): encode, partition the uniques
(discarding the indices), gather the tracked containers, and invoke
the DELETE script with the record key built from the current id —
whatever that id is; the function performs no id check. The encoder
output (attribute list and the declared set/counter/list field names)
is passed in, `encoder.rs` being absent from the sources. -/
def delete (uniqueFields indexFields : List String) (attributes : List String)
    (encSets encCounters encLists : List String) (className : String) (id : Nat) :
    Except OhmerError DeleteCall :=
  match uniques_indices uniqueFields indexFields attributes with
  | .error e => .error e
  | .ok (uniques, _) =>
    .ok { key := recordKey className id,
          id := id,
          name := className,
          uniques := uniques,
          tracked := encSets ++ encCounters ++ encLists }

/-! ### Relation field accessors (`List`, `Set`, `Counter`) -/

/-- Store commands issued by the accessors, for tracking that a failed
accessor touches the store not at all and a successful one issues
exactly the intended primitive. -/
inductive RCmd where
  | llen : String → RCmd
  | rpush : String → Nat → RCmd
  | sadd : String → Nat → RCmd
  | incrby : String → Int → RCmd
  | getKey : String → RCmd
deriving DecidableEq, Repr

/-- Rust `List::key_name` (lib.rs 981-988): `NotSaved` for an unpersisted
owner, otherwise `{Type}:{field}:{id}`. -/
def listKeyName (className property : String) (id : Nat) : Except OhmerError String :=
  if id = 0 then .error .NotSaved
  else .ok (className ++ ":" ++ property ++ ":" ++ toString id)

/-- Rust `Set::key_name` (lib.rs 1104-1111): identical to the list key. -/
def setKeyName (className property : String) (id : Nat) : Except OhmerError String :=
  if id = 0 then .error .NotSaved
  else .ok (className ++ ":" ++ property ++ ":" ++ toString id)

/-- Rust `Counter::get_key` (lib.rs 1217-1224): `NotSaved` for an
unpersisted owner, otherwise `{Type}:{id}:{field}` (id and field
swapped relative to list/set keys). -/
def counterGetKey (className : String) (id : Nat) (prop : String) : Except OhmerError String :=
  if id = 0 then .error .NotSaved
  else .ok (className ++ ":" ++ toString id ++ ":" ++ prop)

/-- Rust `List::len` (lib.rs 991-993): resolve the key, then a single
`LLEN`. The list store maps a key to its element ids. -/
def listLen (className property : String) (id : Nat) (store : String → List Nat) :
    Except OhmerError Nat × List RCmd :=
  match listKeyName className property id with
  | .error e => (.error e, [])
  | .ok k => (.ok (store k).length, [.llen k])

/-- Rust `List::push_back` (lib.rs 996-998): resolve the key, then a single
`RPUSH` of the element's id. -/
def listPushBack (className property : String) (id elemId : Nat) (store : String → List Nat) :
    Except OhmerError (String → List Nat) × List RCmd :=
  match listKeyName className property id with
  | .error e => (.error e, [])
  | .ok k => (.ok (fun k' => if k' = k then store k ++ [elemId] else store k'), [.rpush k elemId])

/-- Rust `Set::insert` (lib.rs 1126-1128): resolve the key, then a single
`SADD`, whose reply says whether the member was new. -/
def setInsert (className property : String) (id elemId : Nat) (store : String → List Nat) :
    Except OhmerError Bool × List RCmd :=
  match setKeyName className property id with
  | .error e => (.error e, [])
  | .ok k => (.ok (!(store k).contains elemId), [.sadd k elemId])

/-- Rust `Counter::incr` (lib.rs 1227-1230): resolve the key, then a single
atomic `INCRBY` and return its reply, the value after the increment
(an absent key counts as 0). The counter store maps a key to its
optional integer value; the updated store is returned alongside. -/
def counterIncr (className prop : String) (id : Nat) (delta : Int)
    (store : String → Option Int) :
    Except OhmerError Int × (String → Option Int) × List RCmd :=
  match counterGetKey className id prop with
  | .error e => (.error e, store, [])
  | .ok k =>
    let newv := (store k).getD 0 + delta
    (.ok newv, fun k' => if k' = k then some newv else store k', [.incrby k delta])

/-- Rust `Counter::get` (lib.rs 1233-1237): resolve the key, `GET` it, and
default an absent value to 0. -/
def counterGet (className prop : String) (id : Nat) (store : String → Option Int) :
    Except OhmerError Int × List RCmd :=
  match counterGetKey className id prop with
  | .error e => (.error e, [])
  | .ok k => (.ok ((store k).getD 0), [.getKey k])

/-! ### Query-result iterator (`Iter`, lib.rs 1456-1472) -/

/-- Rust `Iterator::next` for `Iter`: take the next id; a successful load
yields the record, a failed load yields `none` (end of sequence) in
place of an error. `loader` is the rehydration function (`get`, which
is `load` by id). -/
def iterNext (loader : Nat → Except DecoderError Record) :
    List Nat → Option (Record × List Nat)
  | [] => none
  | id :: rest =>
    match loader id with
    | .ok v => some (v, rest)
    | .error _ => none

/-- Full consumption of the iterator (as `collect` performs it):
records are accumulated until `iterNext` returns `none`. -/
def iterCollect (loader : Nat → Except DecoderError Record) : List Nat → List Record
  | [] => []
  | id :: rest =>
    match loader id with
    | .ok v => v :: iterCollect loader rest
    | .error _ => []

/-! ### Generated equality (`model!`, lib.rs 304-308) -/

/-- The shape of every `model!`-generated struct: the id plus the rest
of the declared fields, here abstracted as a single value of an
arbitrary type so one definition covers every generated type. -/
structure ModelRecord (α : Type) where
  id : Nat
  fields : α
deriving Repr

/-- The generated `PartialEq` (lib.rs 304-308): `self.id == other.id`,
ignoring every other field. -/
def modelEq {α : Type} (a b : ModelRecord α) : Bool :=
  a.id == b.id

/-! ## Helper lemmas -/

/-- Looking up the key just written by `assocSet` yields the written
value. -/
theorem lookup_assocSet_self {β : Type} (l : List (String × β)) (k : String) (v : β) :
    (assocSet l k v).lookup k = some v := by
  induction l with
  | nil => simp [assocSet, List.lookup]
  | cons kv rest ih =>
    obtain ⟨k', v'⟩ := kv
    by_cases h : k' = k
    · simp [assocSet, h, List.lookup]
    · simp only [assocSet, if_neg h, List.lookup]
      have : (k == k') = false := by
        simp [beq_eq_false_iff_ne]
        exact fun hk => h hk.symm
      simp [this, ih]

/-- Decoding ignores a leading attribute whose name is not part of the
schema (unknown keys are ignored). -/
theorem decodeFields_cons_not_mem (schema : List String) (props : List (String × String))
    (k v : String) (h : k ∉ schema) :
    decodeFields schema ((k, v) :: props) = decodeFields schema props := by
  induction schema with
  | nil => rfl
  | cons f rest ih =>
    have hfk : (f == k) = false := by
      simp [beq_eq_false_iff_ne]
      rintro rfl; exact h (List.mem_cons_self _ _)
    have h' : k ∉ rest := fun hm => h (List.mem_cons_of_mem _ hm)
    simp [decodeFields, List.lookup, hfk, ih h']

/-- Decoding a stored attribute list against its own schema restores
it verbatim, provided the field names are distinct. -/
theorem decodeFields_self (fs : List (String × String))
    (h : (fs.map Prod.fst).Nodup) :
    decodeFields (fs.map Prod.fst) fs = .ok fs := by
  induction fs with
  | nil => rfl
  | cons kv rest ih =>
    obtain ⟨k, v⟩ := kv
    simp only [List.map, List.nodup_cons] at h
    obtain ⟨hk, hrest⟩ := h
    simp [decodeFields, List.lookup, decodeFields_cons_not_mem _ _ _ _ hk, ih hrest]

/-- A member of an expression list is no deeper than the list's
maximum depth. -/
theorem StalSet.depth_le_depthList (s : StalSet) (l : List StalSet) (h : s ∈ l) :
    s.depth ≤ StalSet.depthList l := by
  induction l with
  | nil => cases h
  | cons a rest ih =>
    rcases List.mem_cons.mp h with rfl | hmem
    · exact Nat.le_max_left _ _
    · exact le_trans (ih hmem) (Nat.le_max_right _ _)

/-- The first accumulator component of the partition loop: one step
removes exactly the processed key from the remaining unique fields. -/
theorem uiStep_fst (acc : List String × List String × List (String × String) × List (String × List String))
    (kv : String × String) :
    (uiStep acc kv).1 = acc.1.filter (· ≠ kv.1) := by
  unfold uiStep
  dsimp only
  split_ifs <;> rfl

/-- After the whole partition loop, the remaining unique fields are
exactly the declared ones whose names never occur among the attribute
keys. -/
theorem ui_fold_fst (pairs : List (String × String))
    (acc : List String × List String × List (String × String) × List (String × List String)) :
    (pairs.foldl uiStep acc).1
      = acc.1.filter (fun u => u ∉ pairs.map Prod.fst) := by
  induction pairs generalizing acc with
  | nil => simp
  | cons kv rest ih =>
    rw [List.foldl_cons, ih, uiStep_fst, List.filter_filter]
    apply List.filter_congr
    intro u _
    by_cases h1 : u = kv.1 <;> by_cases h2 : u ∈ rest.map Prod.fst <;>
      simp [h1, h2]

/-- Failures of `uniques_indices` are always `UnknownIndex`. -/
theorem uniques_indices_error_shape (uf idxf attrs : List String) (e : OhmerError)
    (h : uniques_indices uf idxf attrs = .error e) :
    ∃ f, e = .UnknownIndex f := by
  unfold uniques_indices at h
  dsimp only at h
  split at h
  · cases h
  · exact ⟨_, ((Except.error.injEq _ _).mp h).symm⟩

/-! ## Claim theorems -/

/-- C9: for every pair of records of the same `model!`-declared type,
`==` holds exactly when the ids are equal, whatever the remaining
fields hold; in particular two unsaved records (id = 0) with different
field values compare equal. -/
theorem model_eq_iff_ids_eq {α : Type} (a b : ModelRecord α) :
    (modelEq a b = true ↔ a.id = b.id) ∧
    (a.id = 0 → b.id = 0 → modelEq a b = true) := by
  constructor
  · simp [modelEq]
  · intro ha hb
    simp [modelEq, ha, hb]

/-- Witness for C9: two unsaved records with entirely different field
values compare equal. -/
theorem model_eq_iff_ids_eq_witness :
    modelEq (ModelRecord.mk 0 "white") (ModelRecord.mk 0 "black") = true :=
  (model_eq_iff_ids_eq (ModelRecord.mk 0 "white") (ModelRecord.mk 0 "black")).2 rfl rfl

/-- C5: each of `sinter`, `sunion`, `sdiff` (and the single-leaf
`inter`, `union`, `diff`) produces a single `Inter`/`Union`/`Diff`
node that contains the entire previous expression as one direct
operand, deepening the tree by one level above it; for `sdiff` the
previous expression is the first operand, so the named sets are
subtracted from the current result. -/
theorem query_ops_wrap_previous (s : StalSet) (sets : List StalSet)
    (className field value : String) :
    (∃ l, Query.sinter s sets = StalSet.Inter l ∧ s ∈ l) ∧
    (∃ l, Query.sunion s sets = StalSet.Union l ∧ s ∈ l) ∧
    (∃ l, Query.sdiff s sets = StalSet.Diff l ∧ l.head? = some s) ∧
    s ∈ (Query.sinter s sets).children ∧
    s ∈ (Query.sunion s sets).children ∧
    s ∈ (Query.sdiff s sets).children ∧
    s.depth + 1 ≤ (Query.sinter s sets).depth ∧
    s.depth + 1 ≤ (Query.sunion s sets).depth ∧
    s.depth + 1 ≤ (Query.sdiff s sets).depth ∧
    (Query.sinter s sets).depth = StalSet.depthList (sets ++ [s]) + 1 ∧
    (Query.sunion s sets).depth = StalSet.depthList (sets ++ [s]) + 1 ∧
    (Query.sdiff s sets).depth = StalSet.depthList (s :: sets) + 1 ∧
    Query.inter s className field value
      = Query.sinter s [Query.key className field value] ∧
    Query.union s className field value
      = Query.sunion s [Query.key className field value] ∧
    Query.diff s className field value
      = Query.sdiff s [Query.key className field value] := by
  have hmem : s ∈ sets ++ [s] := List.mem_append_right _ (List.mem_singleton.mpr rfl)
  have hmem' : s ∈ s :: sets := List.mem_cons_self _ _
  refine ⟨⟨sets ++ [s], rfl, hmem⟩, ⟨sets ++ [s], rfl, hmem⟩,
    ⟨s :: sets, rfl, rfl⟩, hmem, hmem, hmem', ?_, ?_, ?_, rfl, rfl, rfl, rfl, rfl, rfl⟩
  · exact Nat.add_le_add_right (StalSet.depth_le_depthList s _ hmem) 1
  · exact Nat.add_le_add_right (StalSet.depth_le_depthList s _ hmem) 1
  · exact Nat.add_le_add_right (StalSet.depth_le_depthList s _ hmem') 1

/-- C4 counterexample: `key_for_unique` does not return the unique-map
key `{Type}:uniques:{field}` that `with` looks up — it appends the
value. -/
theorem key_for_unique_counterexample :
    key_for_unique "Dog" "name" "Max" = "Dog:uniques:name:Max" ∧
    uniqueMapKey "Dog" "name" = "Dog:uniques:name" ∧
    key_for_unique "Dog" "name" "Max" ≠ uniqueMapKey "Dog" "name" := by
  refine ⟨rfl, rfl, ?_⟩
  decide

/-- C4 amended: the unique-map key the library looks up (in `with`) is
`{Type}:uniques:{field}`, with no value component (the value is the
hash field); `key_for_unique` instead returns that key with `:{value}`
appended, which is never equal to the map key. -/
theorem unique_map_key_shape (ty f v : String) :
    uniqueMapKey ty f = ty ++ ":uniques:" ++ f ∧
    key_for_unique ty f v = uniqueMapKey ty f ++ ":" ++ v ∧
    key_for_unique ty f v ≠ uniqueMapKey ty f := by
  refine ⟨rfl, rfl, ?_⟩
  intro h
  have hlen := congrArg String.length h
  have h1 : (":" : String).length = 1 := rfl
  simp only [key_for_unique, uniqueMapKey, String.length_append, h1] at hlen
  omega

/-- Witness for C4 amended: at a concrete type, field and value the
lookup key and `key_for_unique`'s result differ as stated. -/
theorem unique_map_key_shape_witness :
    uniqueMapKey "Dog" "name" = "Dog" ++ ":uniques:" ++ "name" ∧
    key_for_unique "Dog" "name" "Max" = uniqueMapKey "Dog" "name" ++ ":" ++ "Max" ∧
    key_for_unique "Dog" "name" "Max" ≠ uniqueMapKey "Dog" "name" :=
  unique_map_key_shape "Dog" "name" "Max"

/-- C2 counterexample: `delete` on a record that was never saved
(id = 0) does not fail with `NotSaved`; it proceeds and invokes the
DELETE script with the hash key `Dog:0`. -/
theorem delete_unsaved_counterexample :
    delete [] [] [] [] [] [] "Dog" 0 =
      .ok { key := "Dog:0", id := 0, name := "Dog", uniques := [], tracked := [] } ∧
    delete [] [] [] [] [] [] "Dog" 0 ≠ .error OhmerError.NotSaved := by
  have h : delete [] [] [] [] [] [] "Dog" 0 =
      .ok { key := "Dog:0", id := 0, name := "Dog", uniques := [], tracked := [] } := rfl
  exact ⟨h, by rw [h]; exact fun hc => Except.noConfusion hc⟩

/-- C2 amended: `delete` performs no id check at all: it never fails
with `NotSaved`, and whenever the unique partitioning succeeds it
invokes the DELETE script even for an unsaved record, using the hash
key built from the current id (so `{Type}:0` when id = 0). -/
theorem delete_no_id_check (uf idxf attrs es ec el : List String) (ty : String) (id : Nat) :
    delete uf idxf attrs es ec el ty id ≠ .error OhmerError.NotSaved ∧
    (∀ uniques indices, uniques_indices uf idxf attrs = .ok (uniques, indices) →
      delete uf idxf attrs es ec el ty id =
        .ok { key := recordKey ty id, id := id, name := ty, uniques := uniques,
              tracked := es ++ ec ++ el }) := by
  constructor
  · intro h
    unfold delete at h
    cases hui : uniques_indices uf idxf attrs with
    | error e =>
      rw [hui] at h
      obtain ⟨f, rfl⟩ := uniques_indices_error_shape uf idxf attrs e hui
      simp at h
    | ok p => rw [hui] at h; cases h
  · intro uniques indices hui
    unfold delete
    rw [hui]

/-- Witness for C2 amended: a concrete unsaved record is deleted
without a `NotSaved` failure, the script receiving key `Dog:0`. -/
theorem delete_no_id_check_witness :
    delete ["name"] [] ["name", "Rex"] [] [] [] "Dog" 0 =
      .ok { key := "Dog:0", id := 0, name := "Dog", uniques := [("name", "Rex")],
            tracked := [] } :=
  (delete_no_id_check ["name"] [] ["name", "Rex"] [] [] [] "Dog" 0).2
    [("name", "Rex")] [] rfl

/-- C7: every List, Set and Counter accessor resolves its container
key first, so an owner with id = 0 yields `NotSaved` with no store
command issued; for a persisted owner the key is
`{Type}:{field}:{id}` for lists and sets and `{Type}:{id}:{field}`
for counters. -/
theorem accessor_requires_saved_owner (c p : String) (id elemId : Nat)
    (lstore : String → List Nat) (cstore : String → Option Int) (delta : Int) :
    (id = 0 →
      listKeyName c p id = .error .NotSaved ∧
      setKeyName c p id = .error .NotSaved ∧
      counterGetKey c id p = .error .NotSaved ∧
      (listLen c p id lstore).2 = [] ∧
      (listPushBack c p id elemId lstore).2 = [] ∧
      (setInsert c p id elemId lstore).2 = [] ∧
      (counterIncr c p id delta cstore).2.2 = [] ∧
      (counterGet c p id cstore).2 = [] ∧
      (listLen c p id lstore).1 = .error .NotSaved ∧
      (setInsert c p id elemId lstore).1 = .error .NotSaved ∧
      (counterIncr c p id delta cstore).1 = .error .NotSaved ∧
      (counterGet c p id cstore).1 = .error .NotSaved) ∧
    (id ≠ 0 →
      listKeyName c p id = .ok (c ++ ":" ++ p ++ ":" ++ toString id) ∧
      setKeyName c p id = .ok (c ++ ":" ++ p ++ ":" ++ toString id) ∧
      counterGetKey c id p = .ok (c ++ ":" ++ toString id ++ ":" ++ p)) := by
  constructor
  · intro h
    simp [listKeyName, setKeyName, counterGetKey, listLen, listPushBack, setInsert,
      counterIncr, counterGet, h]
  · intro h
    simp [listKeyName, setKeyName, counterGetKey, h]

/-- Witness for C7: an unsaved owner is rejected with no command; a
saved owner gets the documented keys. -/
theorem accessor_requires_saved_owner_witness :
    (listLen "Queue" "tasks" 0 (fun _ => [])).1 = .error .NotSaved ∧
    (listLen "Queue" "tasks" 0 (fun _ => [])).2 = [] ∧
    listKeyName "Queue" "tasks" 7 = .ok "Queue:tasks:7" ∧
    counterGetKey "Party" 7 "votes" = .ok "Party:7:votes" := by
  have h0 := (accessor_requires_saved_owner "Queue" "tasks" 0 0
    (fun _ => []) (fun _ => none) 1).1 rfl
  have h7 := (accessor_requires_saved_owner "Queue" "tasks" 7 0
    (fun _ => []) (fun _ => none) 1).2 (by decide)
  have h7c := (accessor_requires_saved_owner "Party" "votes" 7 0
    (fun _ => []) (fun _ => none) 1).2 (by decide)
  exact ⟨h0.2.2.2.2.2.2.2.2.1, h0.2.2.2.1, h7.1, h7c.2.2⟩

/-- C8: for a persisted owner, `Counter::incr` issues exactly one
atomic INCRBY (no read command) and returns the value now stored at
the counter key; `Counter::get` of an absent key returns 0. -/
theorem counter_incr_atomic_get_default (c p : String) (id : Nat) (delta : Int)
    (store : String → Option Int) (k : String)
    (hk : counterGetKey c id p = .ok k) :
    (counterIncr c p id delta store).1 = .ok ((store k).getD 0 + delta) ∧
    (counterIncr c p id delta store).2.1 k = some ((store k).getD 0 + delta) ∧
    (counterIncr c p id delta store).2.2 = [RCmd.incrby k delta] ∧
    (store k = none → (counterGet c p id store).1 = .ok 0) ∧
    (counterGet c p id store).2 = [RCmd.getKey k] := by
  by_cases h0 : id = 0
  · simp [counterGetKey, h0] at hk
  · simp only [counterGetKey, if_neg h0, Except.ok.injEq] at hk
    subst hk
    refine ⟨?_, ?_, ?_, ?_, ?_⟩ <;>
      simp [counterIncr, counterGet, counterGetKey, h0]
    intro hnone
    simp [hnone]

/-- Witness for C8: incrementing a fresh counter by 5 returns 5,
stores 5, issues a single INCRBY; reading a fresh counter returns 0. -/
theorem counter_incr_atomic_get_default_witness :
    (counterIncr "Party" "votes" 1 5 (fun _ => none)).1 = .ok 5 ∧
    (counterIncr "Party" "votes" 1 5 (fun _ => none)).2.1 "Party:1:votes" = some 5 ∧
    (counterIncr "Party" "votes" 1 5 (fun _ => none)).2.2 = [RCmd.incrby "Party:1:votes" 5] ∧
    (counterGet "Party" "votes" 1 (fun _ => none)).1 = .ok 0 := by
  have h := counter_incr_atomic_get_default "Party" "votes" 1 5 (fun _ => none)
    "Party:1:votes" rfl
  exact ⟨h.1, h.2.1, h.2.2.1, h.2.2.2.1 rfl⟩

/-- C6: when rehydrating an id fails, the iterator returns `none` at
that position — neither raising nor skipping — and every id before the
failing one has already been yielded with its loaded record. -/
theorem iter_truncates_on_load_failure (loader : Nat → Except DecoderError Record)
    (pre post : List Nat) (bad : Nat)
    (hpre : ∀ i ∈ pre, ∃ v, loader i = .ok v)
    (hbad : ∃ e, loader bad = .error e) :
    iterNext loader (bad :: post) = none ∧
    (iterCollect loader (pre ++ bad :: post)).map Except.ok = pre.map loader := by
  obtain ⟨e, he⟩ := hbad
  constructor
  · simp [iterNext, he]
  · induction pre with
    | nil => simp [iterCollect, he]
    | cons i rest ih =>
      obtain ⟨v, hv⟩ := hpre i (List.mem_cons_self _ _)
      simp only [List.cons_append, iterCollect, hv, List.map_cons]
      rw [List.append_eq, ih (fun j hj => hpre j (List.mem_cons_of_mem _ hj))]

/-- Witness for C6: ids 1 and 2 load, id 5 fails, id 7 never reached:
the iterator yields the records for 1 and 2 and then ends. -/
theorem iter_truncates_on_load_failure_witness :
    iterNext
        (fun i => if i < 3 then (.ok ⟨i, []⟩ : Except DecoderError Record)
          else .error (.MissingField "gone"))
        [5, 7] = none ∧
    (iterCollect
        (fun i => if i < 3 then (.ok ⟨i, []⟩ : Except DecoderError Record)
          else .error (.MissingField "gone"))
        [1, 2, 5, 7]).map Except.ok
      = [1, 2].map
          (fun i => if i < 3 then (.ok ⟨i, []⟩ : Except DecoderError Record)
            else .error (.MissingField "gone")) := by
  have h := iter_truncates_on_load_failure
    (fun i => if i < 3 then (.ok ⟨i, []⟩ : Except DecoderError Record)
      else .error (.MissingField "gone"))
    [1, 2] [7] 5
    (by intro i hi; fin_cases hi <;> exact ⟨_, rfl⟩)
    ⟨.MissingField "gone", rfl⟩
  exact h

/-- C10: `with` returns `Ok(None)` — not an error — when the unique
map records no id for the value, and when an id is recorded it loads
that record and returns `Ok(Some(record))`. -/
theorem with_unique_spec (schema : List String) (ty property value : String) (st : Store) :
    (uniqueLookup st ty property value = none →
      withUnique schema ty property value st = .ok none) ∧
    (∀ id r, uniqueLookup st ty property value = some id →
      load schema ty st id = .ok r →
      withUnique schema ty property value st = .ok (some r)) := by
  constructor
  · intro h
    simp [withUnique, h]
  · intro id r h hl
    simp [withUnique, h, hl]

/-- Witness for C10: on a store holding one Dog with unique name
"Rex", looking up "Bob" yields `Ok(None)` and looking up "Rex" yields
the loaded record. -/
theorem with_unique_spec_witness :
    withUnique ["name"] "Dog" "name" "Bob"
      ⟨[("Dog:1", [("name", "Rex")])], [("Dog:uniques:name", [("Rex", 1)])], [1], 1⟩
      = .ok none ∧
    withUnique ["name"] "Dog" "name" "Rex"
      ⟨[("Dog:1", [("name", "Rex")])], [("Dog:uniques:name", [("Rex", 1)])], [1], 1⟩
      = .ok (some ⟨1, [("name", "Rex")]⟩) := by
  refine ⟨(with_unique_spec ["name"] "Dog" "name" "Bob" _).1 rfl,
    (with_unique_spec ["name"] "Dog" "name" "Rex" _).2 1 ⟨1, [("name", "Rex")]⟩ rfl rfl⟩

/-- C3 counterexample: a declared indexed field (`color`) absent from
the encoded attributes does not make the partitioning fail — it is
silently ignored, so the claim's "unique or indexed" is too broad. -/
theorem uniques_indices_claim_counterexample :
    uniques_indices [] ["color"] ["name", "Rex"] = .ok ([], []) ∧
    "color" ∉ attrKeys ["name", "Rex"] := by
  exact ⟨rfl, by decide⟩

/-- C3 amended: the partitioning fails — always with `UnknownIndex`
naming a missing field — exactly when some declared unique field is
absent from the encoded attribute keys; absent indexed fields are
ignored. -/
theorem uniques_indices_unknown_iff (uf idxf attrs : List String) :
    ((∃ p, uniques_indices uf idxf attrs = .ok p) ↔ ∀ u ∈ uf, u ∈ attrKeys attrs) ∧
    (∀ f, uniques_indices uf idxf attrs = .error (.UnknownIndex f) →
      f ∈ uf ∧ f ∉ attrKeys attrs) ∧
    (∀ e, uniques_indices uf idxf attrs = .error e → ∃ f, e = .UnknownIndex f) := by
  have hfold : ((toPairs attrs).foldl uiStep (uf, idxf, [], [])).1
      = uf.filter (fun u => u ∉ attrKeys attrs) := ui_fold_fst _ _
  rcases hrem : uf.filter (fun u => u ∉ attrKeys attrs) with _ | ⟨f0, rest⟩
  · have hok : ∃ p, uniques_indices uf idxf attrs = .ok p := by
      unfold uniques_indices
      dsimp only
      simp only [hfold, hrem]
      exact ⟨_, rfl⟩
    refine ⟨⟨?_, fun _ => hok⟩, ?_, ?_⟩
    · intro _ u hu
      by_contra hnk
      have hmemf : u ∈ uf.filter (fun u => u ∉ attrKeys attrs) :=
        List.mem_filter.mpr ⟨hu, by simpa using hnk⟩
      rw [hrem] at hmemf
      cases hmemf
    · intro f hf
      obtain ⟨p, hp⟩ := hok
      rw [hp] at hf
      cases hf
    · intro e he
      obtain ⟨p, hp⟩ := hok
      rw [hp] at he
      cases he
  · have herr : uniques_indices uf idxf attrs = .error (.UnknownIndex f0) := by
      unfold uniques_indices
      dsimp only
      rw [hfold, hrem]
    have hf0 : f0 ∈ uf.filter (fun u => u ∉ attrKeys attrs) := by
      rw [hrem]
      exact List.mem_cons_self _ _
    have hf0' := List.mem_filter.mp hf0
    refine ⟨⟨?_, ?_⟩, ?_, ?_⟩
    · rintro ⟨p, hp⟩
      rw [herr] at hp
      cases hp
    · intro hall
      exact absurd (hall f0 hf0'.1) (by simpa using hf0'.2)
    · intro f hf
      rw [herr] at hf
      have hff : OhmerError.UnknownIndex f0 = OhmerError.UnknownIndex f :=
        (Except.error.injEq _ _).mp hf
      obtain rfl : f0 = f := (OhmerError.UnknownIndex.injEq _ _).mp hff
      exact ⟨hf0'.1, by simpa using hf0'.2⟩
    · intro e he
      rw [herr] at he
      exact ⟨f0, ((Except.error.injEq _ _).mp he).symm⟩

/-- Witness for C3 amended: a present unique field partitions
successfully; an absent one is a declared unique field missing from
the attribute keys and produces the `UnknownIndex` error. -/
theorem uniques_indices_unknown_iff_witness :
    (∃ p, uniques_indices ["name"] ["age"] ["name", "Rex", "age", "3"] = .ok p) ∧
    ("name" ∈ ["name"] ∧ "name" ∉ attrKeys ["age", "3"]) := by
  refine ⟨(uniques_indices_unknown_iff ["name"] ["age"]
    ["name", "Rex", "age", "3"]).1.mpr (by decide),
    (uniques_indices_unknown_iff ["name"] ["age"] ["age", "3"]).2.1 "name" rfl⟩

/-- C1: a successful `save` of a fresh record (id = 0) followed by
`load` of the id that save assigned yields a record whose every
plain, unique and indexed field equals the saved one's verbatim and
whose id is the assigned, non-zero id. -/
theorem save_load_round_trip (uf idxf schema : List String) (ty : String)
    (st : Store) (r : Record) (i : Nat) (st' : Store)
    (hid : r.id = 0)
    (hschema : r.fields.map Prod.fst = schema)
    (hnodup : schema.Nodup)
    (hsave : save uf idxf ty r st = .ok (i, st')) :
    load schema ty st' i = .ok { id := i, fields := r.fields } ∧ i ≠ 0 := by
  unfold save at hsave
  rcases hui : uniques_indices uf idxf (flattenAttrs r.fields) with e | ⟨uniques, indices⟩
  · rw [hui] at hsave
    cases hsave
  · rw [hui] at hsave
    dsimp only at hsave
    simp only [hid, if_pos] at hsave
    rcases hcu : checkUniques st ty (st.nextId + 1) uniques with e | u
    · rw [hcu] at hsave
      cases hsave
    · rw [hcu] at hsave
      dsimp only at hsave
      rw [Except.ok.injEq, Prod.mk.injEq] at hsave
      obtain ⟨hi, hst⟩ := hsave
      subst hi
      subst hst
      subst hschema
      constructor
      · unfold load
        dsimp only
        rw [lookup_assocSet_self, Option.getD_some,
          decodeFields_self r.fields hnodup]
      · exact Nat.succ_ne_zero _

/-- Witness for C1: saving a fresh Dog with a unique name and an
indexed age into the empty store assigns id 1, and loading id 1
returns the same fields with the new id. -/
theorem save_load_round_trip_witness :
    save ["name"] ["age"] "Dog" ⟨0, [("name", "Rex"), ("age", "3")]⟩ Store.empty
      = .ok (1, ⟨[("Dog:1", [("name", "Rex"), ("age", "3")])],
                 [("Dog:uniques:name", [("Rex", 1)])], [1], 1⟩) ∧
    load ["name", "age"] "Dog"
      ⟨[("Dog:1", [("name", "Rex"), ("age", "3")])],
       [("Dog:uniques:name", [("Rex", 1)])], [1], 1⟩ 1
      = .ok ⟨1, [("name", "Rex"), ("age", "3")]⟩ ∧ (1 : Nat) ≠ 0 := by
  have hs : save ["name"] ["age"] "Dog" ⟨0, [("name", "Rex"), ("age", "3")]⟩ Store.empty
      = .ok (1, ⟨[("Dog:1", [("name", "Rex"), ("age", "3")])],
                 [("Dog:uniques:name", [("Rex", 1)])], [1], 1⟩) := rfl
  have h := save_load_round_trip ["name"] ["age"] ["name", "age"] "Dog" Store.empty
    ⟨0, [("name", "Rex"), ("age", "3")]⟩ 1
    ⟨[("Dog:1", [("name", "Rex"), ("age", "3")])],
     [("Dog:uniques:name", [("Rex", 1)])], [1], 1⟩
    rfl rfl (by decide) hs
  exact ⟨hs, h.1, h.2⟩

end Ohmers
